import Mathlib

/-!
# Verification of the tiny-router path compiler and dispatcher

Shallow embedding of `src/tinyRouter.js`:

* a small regular-expression AST (`Re`) together with a backtracking
  matcher (`mrun`) that reproduces the JavaScript `RegExp` semantics for
  the constructs the router's `compile` function emits (literals, `.`,
  negated character classes, capturing / non-capturing groups, greedy
  `?` and `*`, greedy `+`, lazy `+?`, the `i` flag, and `^...$`
  anchoring of `RegExp.prototype.exec` on an anchored pattern);
* the five `String.replace` passes of `compile`, character-exact;
* a parser from the emitted regex source text to the AST;
* `decodeURIComponent` (the ECMAScript `Decode` operation) and the
  router's `decode` helper;
* the middleware layer: `matches`, `routeMiddleware`, `createRoute`,
  `createRouteMethod`, with the host framework's `compose`/pipeline
  modelled from the spec (it lives in the external `hoa` package).
-/

namespace TinyRouter

/-! ## Regular expression AST -/

/-- Abstract syntax of the regular expressions emitted by `compile`:
literal characters, `.` (any char except a line terminator), negated character
classes `[^...]`, concatenation, capturing groups (named or anonymous),
greedy `?`, greedy `*`, greedy `+`, and lazy `+?`. -/
inductive Re where
  | eps : Re
  | lit : Char → Re
  | dot : Re
  | negClass : List Char → Re
  | seq : Re → Re → Re
  | group : Option String → Re → Re
  | opt : Re → Re
  | star : Re → Re
  | plusGreedy : Re → Re
  | plusLazy : Re → Re
deriving Repr, DecidableEq

/-- Names of the named capture groups of a regex, in left-to-right
(definition) order — the key set of the JavaScript `match.groups`
object, in its property-creation order. -/
def Re.names : Re → List String
  | .eps => []
  | .lit _ => []
  | .dot => []
  | .negClass _ => []
  | .seq a b => a.names ++ b.names
  | .group (some n) r => n :: r.names
  | .group none r => r.names
  | .opt r => r.names
  | .star r => r.names
  | .plusGreedy r => r.names
  | .plusLazy r => r.names

/-- Size of a regex term, used to bound the matcher's fuel. -/
def Re.size : Re → Nat
  | .eps => 1
  | .lit _ => 1
  | .dot => 1
  | .negClass _ => 1
  | .seq a b => a.size + b.size + 1
  | .group _ r => r.size + 1
  | .opt r => r.size + 1
  | .star r => r.size + 1
  | .plusGreedy r => r.size + 1
  | .plusLazy r => r.size + 1

/-- Capture state: one entry per named group of the regex, in definition
order; `none` models a group that has not (yet) participated in the
match — JavaScript's `undefined` entry in `match.groups`. -/
abbrev Caps := List (String × Option String)

/-- Record a capture for the named group `n` (JavaScript overwrites the
previous capture of the same group). -/
def setCap (caps : Caps) (n : String) (v : String) : Caps :=
  caps.map fun p => if p.1 = n then (n, some v) else p

/-- Character comparison under the optional `i` flag (`toLower`-based
case folding; the router only ever compares ASCII here). -/
def charEq (ci : Bool) (a b : Char) : Bool :=
  if ci then a.toLower = b.toLower else a = b

/-- The backtracking matcher.  `mrun ci fuel re s caps` returns every
way `re` can consume a prefix of `s`, as pairs (remaining input,
updated captures), **in JavaScript backtracking priority order**:
greedy quantifiers yield longer consumptions first, lazy ones shorter
first, `a?` tries the non-empty branch first.  An iteration of `*`/`+`
that consumes nothing ends the loop, as in ECMAScript's
`RepeatMatcher`.  `fuel` bounds the recursion depth; every star/plus
iteration consumes at least one character, so any fuel of at least
`(|s| + 2) * (size re + 2)` is exhaustive. -/
def mrun (ci : Bool) : Nat → Re → List Char → Caps → List (List Char × Caps)
  | 0, _, _, _ => []
  | Nat.succ fuel, re, s, caps =>
    match re with
    | .eps => [(s, caps)]
    | .lit c =>
      match s with
      | [] => []
      | x :: xs => if charEq ci x c then [(xs, caps)] else []
    | .dot =>
      match s with
      | [] => []
      | x :: xs =>
        if x = '\n' ∨ x = '\r' ∨ x = '\u2028' ∨ x = '\u2029' then [] else [(xs, caps)]
    | .negClass cs =>
      match s with
      | [] => []
      | x :: xs => if cs.any (fun c => charEq ci x c) then [] else [(xs, caps)]
    | .seq a b =>
      (mrun ci fuel a s caps).flatMap fun p => mrun ci fuel b p.1 p.2
    | .group name r =>
      (mrun ci fuel r s caps).map fun p =>
        match name with
        | some n => (p.1, setCap p.2 n (String.mk (s.take (s.length - p.1.length))))
        | none => p
    | .opt r => mrun ci fuel r s caps ++ [(s, caps)]
    | .star r =>
      ((mrun ci fuel r s caps).flatMap fun p =>
        if p.1.length < s.length then mrun ci fuel (.star r) p.1 p.2 else []) ++ [(s, caps)]
    | .plusGreedy r =>
      (mrun ci fuel r s caps).flatMap fun p =>
        (if p.1.length < s.length then mrun ci fuel (.plusGreedy r) p.1 p.2 else []) ++ [p]
    | .plusLazy r =>
      (mrun ci fuel r s caps).flatMap fun p =>
        p :: (if p.1.length < s.length then mrun ci fuel (.plusLazy r) p.1 p.2 else [])

/-- A compiled `RegExp`: the parsed body (between the `^` and `$`
anchors) plus the presence of the `i` flag. -/
structure CompiledRegExp where
  re : Re
  ignoreCase : Bool
deriving Repr, DecidableEq

/-- `regexp.exec(input)` for the anchored `^body$` regexes that
`compile` builds: the first full-input match in backtracking priority
order, returning the named-capture mapping (`match.groups`, one entry
per named group, `none` for a group that did not participate), or
`none` when the regex does not match. -/
def execRegExp (r : CompiledRegExp) (input : String) : Option Caps :=
  match (mrun r.ignoreCase ((input.data.length + 2) * (r.re.size + 2)) r.re input.data
      (r.re.names.map fun n => (n, none))).filter (fun p => p.1.isEmpty) with
  | [] => none
  | p :: _ => some p.2

/-! ## Parsing the emitted regex source text

`compile` builds a JavaScript regex *source string*; we parse the
subset of regex syntax that can occur in its output into `Re`.
Unsupported syntax (alternation, positive classes, `\w`-style class
escapes, stray anchors/quantifiers — where the JavaScript `RegExp`
constructor would give them a meaning our AST cannot express, or throw)
makes the parser return `none`. -/

/-- JavaScript `\w`: `[A-Za-z0-9_]`. -/
def isWordChar (c : Char) : Bool :=
  (('a' ≤ c && c ≤ 'z') || ('A' ≤ c && c ≤ 'Z') || ('0' ≤ c && c ≤ '9') || c = '_')

/-- Parse the interior of a `[^...]` class up to the closing `]`:
a `\c` escape stands for the literal `c`. -/
def parseClassChars : List Char → Option (List Char × List Char)
  | [] => none
  | ']' :: rest => some ([], rest)
  | '\\' :: c :: rest =>
    if isWordChar c then none
    else (parseClassChars rest).map fun p => (c :: p.1, p.2)
  | '\\' :: [] => none
  | c :: rest => (parseClassChars rest).map fun p => (c :: p.1, p.2)

/-- Apply a postfix quantifier (`?`, `*`, `+?`, `+`) to the parsed atom. -/
def applyPostfix (a : Re) : List Char → Re × List Char
  | '?' :: rest => (.opt a, rest)
  | '*' :: rest => (.star a, rest)
  | '+' :: '?' :: rest => (.plusLazy a, rest)
  | '+' :: rest => (.plusGreedy a, rest)
  | rest => (a, rest)

mutual

/-- Parse a sequence of quantified atoms, stopping at `)` or the end. -/
def parseSeq : Nat → List Char → Option (Re × List Char)
  | 0, _ => none
  | Nat.succ _, [] => some (.eps, [])
  | Nat.succ _, s@(')' :: _) => some (.eps, s)
  | Nat.succ fuel, s =>
    (parseAtom fuel s).bind fun a =>
      let q := applyPostfix a.1 a.2
      (parseSeq fuel q.2).map fun b => (.seq q.1 b.1, b.2)

/-- Parse one atom: a group `(...)`, `(?:...)`, `(?<name>...)`, a class
`[^...]`, an escape `\c`, `.`, or a literal character. -/
def parseAtom : Nat → List Char → Option (Re × List Char)
  | 0, _ => none
  | Nat.succ fuel, s =>
    match s with
    | '(' :: '?' :: ':' :: rest =>
      (parseSeq fuel rest).bind fun p =>
        match p.2 with
        | ')' :: rest2 => some (p.1, rest2)
        | _ => none
    | '(' :: '?' :: '<' :: rest =>
      let name := rest.takeWhile isWordChar
      (match rest.dropWhile isWordChar with
       | '>' :: rest2 =>
         if name = [] then none
         else (parseSeq fuel rest2).bind fun p =>
           match p.2 with
           | ')' :: rest3 => some (.group (some (String.mk name)) p.1, rest3)
           | _ => none
       | _ => none)
    | '(' :: '?' :: _ => none
    | '(' :: rest =>
      (parseSeq fuel rest).bind fun p =>
        match p.2 with
        | ')' :: rest2 => some (.group none p.1, rest2)
        | _ => none
    | '[' :: '^' :: rest =>
      (parseClassChars rest).map fun p => (.negClass p.1, p.2)
    | '[' :: _ => none
    | '\\' :: c :: rest => if isWordChar c then none else some (.lit c, rest)
    | '\\' :: [] => none
    | '.' :: rest => some (.dot, rest)
    | '?' :: _ => none
    | '*' :: _ => none
    | '+' :: _ => none
    | '^' :: _ => none
    | '$' :: _ => none
    | '|' :: _ => none
    | '{' :: _ => none
    | c :: rest => some (.lit c, rest)
    | [] => none

end

/-- Parse a full regex body (the part of the source between the added
`^` and `$` anchors). -/
def parseRegex (src : String) : Option Re :=
  match parseSeq (2 * src.length + 4) src.data with
  | some (r, []) => some r
  | _ => none

/-! ## The `compile` rewrite passes

Each pass is one of the global `String.replace` calls of `compile`,
implemented with the exact match/advance semantics of a JavaScript
global regex replace: scan left to right, at each position either
rewrite the (backtracking-correct) match and continue after it, or copy
one character and advance. -/

/-- Pass 1, `path.replace(/\/+(\/|$)/g, '$1')`: a run of separators
followed by another separator collapses to that separator; a run of
separators at the end of the string is stripped.  The fuel only bounds
the recursion (every step consumes at least one character, so
`length + 1` is never exhausted); structural recursion on it keeps the
definition computable by the kernel. -/
def stripSlashesAux : Nat → List Char → List Char
  | 0, _ => []
  | Nat.succ fuel, s =>
    match s with
    | [] => []
    | '/' :: rest =>
      if rest.dropWhile (· = '/') = [] then []
      else '/' :: stripSlashesAux fuel (rest.dropWhile (· = '/'))
    | c :: rest => c :: stripSlashesAux fuel rest

def stripSlashes (s : List Char) : List Char :=
  stripSlashesAux (s.length + 1) s

/-- The greedy `\/?\.?` prefix of the parameter-marker patterns: the
matched prefix (`$1`) and the remaining input.  Backtracking note: when
the character after this prefix is not `:` the whole marker pattern has
no match at this position, because neither `/` nor `.` equals `:`, so
giving back prefix characters can never make the mandatory `:` match. -/
def splitPrefix (s : List Char) : List Char × List Char :=
  match s with
  | '/' :: '.' :: r => (['/', '.'], r)
  | '/' :: r => (['/'], r)
  | '.' :: r => (['.'], r)
  | r => ([], r)

/-- Shared scanner of the parameter-marker patterns
`(\/?\.?):(\w+)\+` (when `plus` is true) and `(\/?\.?):(\w+)`:
at the current position, the optional separator/dot prefix (`$1`), the
name (`$2`) and the rest after the match, or `none` when the pattern
does not match here. -/
def tryParamMatch (plus : Bool) (s : List Char) : Option (List Char × List Char × List Char) :=
  match (splitPrefix s).2 with
  | ':' :: s2 =>
    if s2.takeWhile isWordChar = [] then none
    else if plus then
      match s2.dropWhile isWordChar with
      | '+' :: s4 => some ((splitPrefix s).1, s2.takeWhile isWordChar, s4)
      | _ => none
    else some ((splitPrefix s).1, s2.takeWhile isWordChar, s2.dropWhile isWordChar)
  | _ => none

/-- Pass 2, `.replace(/(\/?\.?):(\w+)\+/g, '($1(?<$2>*))')`: greedy
parameter markers. -/
def greedyParamsAux : Nat → List Char → List Char
  | 0, _ => []
  | Nat.succ fuel, s =>
    match s with
    | [] => []
    | c :: rest =>
      match tryParamMatch true (c :: rest) with
      | some m =>
        '(' :: m.1 ++ ('(' :: '?' :: '<' :: m.2.1) ++
          ('>' :: '*' :: ')' :: ')' :: greedyParamsAux fuel m.2.2)
      | none => c :: greedyParamsAux fuel rest

def greedyParams (s : List Char) : List Char :=
  greedyParamsAux (s.length + 1) s

/-- Pass 3, `.replace(/(\/?\.?):(\w+)/g, '($1(?<$2>[^$1/]+?))')`: named
parameter markers. -/
def namedParamsAux : Nat → List Char → List Char
  | 0, _ => []
  | Nat.succ fuel, s =>
    match s with
    | [] => []
    | c :: rest =>
      match tryParamMatch false (c :: rest) with
      | some m =>
        '(' :: m.1 ++ ('(' :: '?' :: '<' :: m.2.1) ++ ('>' :: '[' :: '^' :: m.1) ++
          ('/' :: ']' :: '+' :: '?' :: ')' :: ')' :: namedParamsAux fuel m.2.2)
      | none => c :: namedParamsAux fuel rest

def namedParams (s : List Char) : List Char :=
  namedParamsAux (s.length + 1) s

/-- Pass 4, `.replace(/\./g, '\\.')`: escape literal dots. -/
def escapeDots : List Char → List Char
  | [] => []
  | '.' :: rest => '\\' :: '.' :: escapeDots rest
  | c :: rest => c :: escapeDots rest

/-- Pass 5, `.replace(/(\/?)\*/g, '($1.*)?')`: bare wildcard markers. -/
def wildcard : List Char → List Char
  | [] => []
  | '/' :: '*' :: rest => '(' :: '/' :: '.' :: '*' :: ')' :: '?' :: wildcard rest
  | '*' :: rest => '(' :: '.' :: '*' :: ')' :: '?' :: wildcard rest
  | c :: rest => c :: wildcard rest

/-- The regex source text `compile` builds for a pattern, before the
trailing-slash suffix and the anchors are added. -/
def compilePattern (path : String) : String :=
  String.mk (wildcard (escapeDots (namedParams (greedyParams (stripSlashes path.data)))))

/-- Router options: `sensitive` (default `false`) and `trailing`
(default `true`). -/
structure RouteOptions where
  sensitive : Bool := false
  trailing : Bool := true
deriving Repr, DecidableEq

/-- `compile(path, options)`: rewrite the pattern, append the optional
trailing separator `(?:\/)?` when `trailing` is enabled, anchor, and
set the `i` flag unless `sensitive`.  Returns `none` when the produced
source falls outside the regex subset the model parses. -/
def compile (path : String) (o : RouteOptions) : Option CompiledRegExp :=
  let body := compilePattern path ++ (if o.trailing then "(?:\\/)?" else "")
  (parseRegex body).map fun re => { re := re, ignoreCase := !o.sensitive }

/-! ## Parameter decoding -/

/-- Value of a hexadecimal digit (both cases), `none` otherwise. -/
def hexDigit (c : Char) : Option Nat :=
  let n := c.toNat
  if 48 ≤ n && n ≤ 57 then some (n - 48)
  else if 65 ≤ n && n ≤ 70 then some (n - 55)
  else if 97 ≤ n && n ≤ 102 then some (n - 87)
  else none

/-- Number of bytes of a UTF-8 sequence, from its leading byte;
`none` for a byte that cannot lead a sequence. -/
def utf8Len (b : Nat) : Option Nat :=
  if b < 0x80 then some 1
  else if b < 0xC0 then none
  else if b < 0xE0 then some 2
  else if b < 0xF0 then some 3
  else if b < 0xF8 then some 4
  else none

/-- Smallest code point of an `n`-byte UTF-8 sequence (overlong check). -/
def utf8Min : Nat → Nat
  | 2 => 0x80
  | 3 => 0x800
  | 4 => 0x10000
  | _ => 0

/-- Read `n` continuation bytes, each written as a `%hh` escape with
value in `[0x80, 0xBF]`; returns their low-6-bit values and the rest. -/
def readCont : Nat → List Char → Option (List Nat × List Char)
  | 0, s => some ([], s)
  | Nat.succ n, '%' :: h1 :: h2 :: rest =>
    (hexDigit h1).bind fun a =>
      (hexDigit h2).bind fun b =>
        let v := 16 * a + b
        if 0x80 ≤ v ∧ v < 0xC0 then
          (readCont n rest).map fun p => ((v % 64) :: p.1, p.2)
        else none
  | Nat.succ _, _ => none

/-- The ECMAScript `Decode` operation with an empty preserved set, i.e.
`decodeURIComponent`: percent-escapes are decoded as UTF-8, every other
character is copied; `none` models the thrown `URIError` (truncated or
non-hex escape, bad leading/continuation byte, overlong encoding,
surrogate, or out-of-range code point). -/
def decodeURIComponentAux : Nat → List Char → Option (List Char)
  | 0, _ => none
  | Nat.succ _, [] => some []
  | Nat.succ fuel, '%' :: rest =>
    match rest with
    | h1 :: h2 :: rest2 =>
      (hexDigit h1).bind fun a =>
        (hexDigit h2).bind fun b =>
          let b0 := 16 * a + b
          (utf8Len b0).bind fun n =>
            if n = 1 then
              (decodeURIComponentAux fuel rest2).map fun t => Char.ofNat b0 :: t
            else
              (readCont (n - 1) rest2).bind fun p =>
                let v := p.1.foldl (fun acc c => acc * 64 + c) (b0 % (2 ^ (7 - n)))
                if v < utf8Min n ∨ (0xD800 ≤ v ∧ v ≤ 0xDFFF) ∨ 0x10FFFF < v then none
                else (decodeURIComponentAux fuel p.2).map fun t => Char.ofNat v :: t
    | _ => none
  | Nat.succ fuel, c :: rest =>
    (decodeURIComponentAux fuel rest).map fun t => c :: t

/-- `decodeURIComponent(s)`: the decoded string, or `none` when
JavaScript would throw `URIError: URI malformed`. -/
def decodeURIComponent (s : String) : Option String :=
  (decodeURIComponentAux (s.length + 1) s.data).map String.mk

/-- The router's `decode(val)`: `undefined` for a falsy raw value
(absent capture or empty string) without decoding; otherwise the
percent-decoded value, a decoding failure propagating as a thrown
error (`Except.error`). -/
def decode (val : Option String) : Except String (Option String) :=
  match val with
  | none => .ok none
  | some s =>
    if s = "" then .ok none
    else
      match decodeURIComponent s with
      | some d => .ok (some d)
      | none => .error "URIError: URI malformed"

/-- The params object built by `routeMiddleware`:
`params[key] = decode(value)` for each entry of `m.groups`, in order;
the first decoding failure aborts the whole step. -/
def decodeParams : List (String × Option String) → Except String (List (String × Option String))
  | [] => .ok []
  | (k, v) :: rest =>
    (decode v).bind fun d =>
      (decodeParams rest).map fun t => (k, d) :: t

/-! ## Context, middleware, and dispatch

The per-request context: the request's method and pathname, the
`params`/`routePath` fields the router attaches, and `marks`, standing
for the arbitrary observable state user handlers may write (the real
context is an open object). `Outcome` is the settled result of a
pipeline: a final context or a thrown error. -/

structure Req where
  method : String
  pathname : String
  params : Option (List (String × Option String)) := none
  routePath : Option String := none
deriving Repr, DecidableEq

structure Ctx where
  req : Req
  marks : List String := []
deriving Repr, DecidableEq

abbrev Outcome := Except String Ctx

/-- A pipeline step: receives the context and the "continue"
continuation (`next`). -/
abbrev Middleware := Ctx → (Ctx → Outcome) → Outcome

/-- `matches(ctx, method)`: an `undefined` route method matches every
request; otherwise the request method must equal the route method,
except that a GET route also matches a HEAD request. -/
def «matches» (ctx : Ctx) (method : Option String) : Bool :=
  match method with
  | none => true
  | some m =>
    if ctx.req.method = m then true
    else if m = "GET" ∧ ctx.req.method = "HEAD" then true
    else false

/-- The route middleware produced by `createRoute`: defer via `next`
when the method or the path does not match; otherwise decode the
captured parameters, attach `params` and `routePath` to the request,
and invoke the composed handler chain with the same `next`. -/
def routeMiddleware (method : Option String) (path : String) (composed : Middleware)
    (regexp : CompiledRegExp) : Middleware :=
  fun ctx next =>
    if ¬ «matches» ctx method then next ctx
    else
      match execRegExp regexp ctx.req.pathname with
      | none => next ctx
      | some groups =>
        match decodeParams groups with
        | .error e => .error e
        | .ok params =>
          composed
            { ctx with req := { ctx.req with params := some params, routePath := some path } }
            next

/-- Modelled from the spec: the host framework's handler composition
(`compose` from the external `hoa` package, absent from this
repository) — "multiple handlers are combined into one composed
handler that runs them in order, each explicitly invoking 'continue'
to proceed to the next handler in its own chain". -/
def compose : List Middleware → Middleware
  | [] => fun ctx next => next ctx
  | m :: rest => fun ctx next => m ctx fun c => compose rest c next

/-- `handlers.length === 1 ? handlers[0] : compose(handlers)`. -/
def composedOf (handlers : List Middleware) : Middleware :=
  match handlers with
  | [h] => h
  | hs => compose hs

/-- `createRoute(method, path, handlers, options)`: compile the pattern
and wrap it into the route middleware; `none` when the produced regex
source falls outside the modelled subset. -/
def createRoute (method : Option String) (path : String) (handlers : List Middleware)
    (o : RouteOptions) : Option Middleware :=
  (compile path o).map (routeMiddleware method path (composedOf handlers))

/-- Modelled from the spec: the host application, "an ordered pipeline
of steps"; `use` appends one step, registration order being owned by
this pipeline. -/
structure App where
  middlewares : List Middleware

/-- Modelled from the spec: `app.use` appends a pipeline step. -/
def App.use (app : App) (m : Middleware) : App :=
  { middlewares := app.middlewares ++ [m] }

/-- Modelled from the spec: running the host pipeline over a request
context with a final fallback continuation. -/
def App.dispatch (app : App) (ctx : Ctx) (final : Ctx → Outcome) : Outcome :=
  compose app.middlewares ctx final

/-- The registration helper `createRouteMethod(method)` applied to
`(path, ...handlers)`: throws the configuration error when `handlers`
is empty (before anything is compiled or registered), otherwise
registers the route middleware and returns the app.  The secondary
error models the `RegExp` constructor throwing on a produced source
outside the modelled subset. -/
def createRouteMethod (method : Option String) (o : RouteOptions) (app : App)
    (path : String) (handlers : List Middleware) : Except String App :=
  if handlers.length = 0 then
    .error ("Route " ++ method.getD "ALL" ++ " " ++ path ++ " must have at least one handler")
  else
    match createRoute method path handlers o with
    | some mw => .ok (app.use mw)
    | none => .error "SyntaxError: invalid regular expression"

/-- The HTTP method helpers installed on the app, each registering with
the upper-cased method name; `app.all` registers with no method. -/
def methods : List String :=
  ["options", "head", "get", "post", "put", "patch", "delete"]

/-! ## Concrete fixtures used by the theorems below -/

/-- A handler that records its tag in the context and continues. -/
def markHandler (tag : String) : Middleware :=
  fun ctx next => next { ctx with marks := ctx.marks ++ [tag] }

/-- A handler that just continues. -/
def idHandler : Middleware :=
  fun ctx next => next ctx

/-- A GET request for `/users/7`. -/
def ctx0 : Ctx := { req := { method := "GET", pathname := "/users/7" } }

/-- The compiled matcher of `/users` under default options. -/
def usersRegexp : CompiledRegExp := (compile "/users" {}).getD ⟨.eps, true⟩

/-- The compiled matcher of `/users/:id` under default options. -/
def usersIdRegexp : CompiledRegExp := (compile "/users/:id" {}).getD ⟨.eps, true⟩

/-- The compiled matcher of `/x/:v` under default options. -/
def xvRegexp : CompiledRegExp := (compile "/x/:v" {}).getD ⟨.eps, true⟩

/-- The compiled matcher of `/files/*` under default options. -/
def filesRegexp : CompiledRegExp := (compile "/files/*" {}).getD ⟨.eps, true⟩

/-! ## General lemmas: capture keys are exactly the named groups -/

theorem setCap_map_fst (caps : Caps) (n : String) (v : String) :
    (setCap caps n v).map Prod.fst = caps.map Prod.fst := by
  unfold setCap
  rw [List.map_map]
  apply List.map_congr_left
  intro p _
  by_cases h : p.1 = n <;> simp [h]

/-- Whatever path the matcher takes, the key list of the capture state
is never changed: captures are only ever written at existing keys. -/
theorem mrun_map_fst (ci : Bool) :
    ∀ (fuel : Nat) (re : Re) (s : List Char) (caps : Caps) (p : List Char × Caps),
      p ∈ mrun ci fuel re s caps → p.2.map Prod.fst = caps.map Prod.fst := by
  intro fuel
  induction fuel with
  | zero => intro re s caps p hp; simp [mrun] at hp
  | succ n ih =>
    intro re s caps p hp
    cases re with
    | eps =>
      simp [mrun] at hp
      rw [hp]
    | lit c =>
      cases s with
      | nil => simp [mrun] at hp
      | cons x xs =>
        by_cases hc : charEq ci x c <;> simp [mrun, hc] at hp
        rw [hp]
    | dot =>
      cases s with
      | nil => simp [mrun] at hp
      | cons x xs =>
        by_cases hc : x = '\n' ∨ x = '\r' ∨ x = '\u2028' ∨ x = '\u2029' <;>
          simp [mrun, hc] at hp
        rw [hp]
    | negClass cs =>
      cases s with
      | nil => simp [mrun] at hp
      | cons x xs =>
        by_cases hc : cs.any (fun c => charEq ci x c) <;> simp [mrun, hc] at hp
        rw [hp]
    | seq a b =>
      simp [mrun] at hp
      obtain ⟨q1, q2, hq, hp⟩ := hp
      rw [ih b q1 q2 p hp, ih a s caps (q1, q2) hq]
    | group name r =>
      simp [mrun] at hp
      obtain ⟨q1, q2, hq, hp⟩ := hp
      cases name with
      | some nm =>
        simp at hp
        rw [← hp]
        simp [setCap_map_fst]
        exact ih r s caps (q1, q2) hq
      | none =>
        simp at hp
        rw [← hp]
        exact ih r s caps (q1, q2) hq
    | opt r =>
      simp [mrun] at hp
      rcases hp with hp | hp
      · exact ih r s caps p hp
      · rw [hp]
    | star r =>
      simp [mrun] at hp
      rcases hp with ⟨q1, q2, hq, hlt, hp⟩ | hp
      · rw [ih (.star r) q1 q2 p hp, ih r s caps (q1, q2) hq]
      · rw [hp]
    | plusGreedy r =>
      simp [mrun] at hp
      obtain ⟨q1, q2, hq, hp⟩ := hp
      rcases hp with ⟨hlt, hp⟩ | hp
      · rw [ih (.plusGreedy r) q1 q2 p hp, ih r s caps (q1, q2) hq]
      · rw [hp]
        exact ih r s caps (q1, q2) hq
    | plusLazy r =>
      simp [mrun] at hp
      obtain ⟨q1, q2, hq, hp⟩ := hp
      rcases hp with hp | ⟨hlt, hp⟩
      · rw [hp]
        exact ih r s caps (q1, q2) hq
      · rw [ih (.plusLazy r) q1 q2 p hp, ih r s caps (q1, q2) hq]

/-- The key list of an `exec` match result is exactly the regex's named
groups, in definition order, for every input. -/
theorem execRegExp_map_fst (r : CompiledRegExp) (input : String) (g : Caps)
    (h : execRegExp r input = some g) : g.map Prod.fst = r.re.names := by
  unfold execRegExp at h
  split at h
  · exact absurd h (by simp)
  · rename_i p rest heq
    injection h with h
    have hp : p ∈ (mrun r.ignoreCase ((input.data.length + 2) * (r.re.size + 2)) r.re input.data
        (r.re.names.map fun n => (n, none))).filter (fun p => p.1.isEmpty) := by
      rw [heq]
      exact List.mem_cons_self _ _
    have hm := List.mem_of_mem_filter hp
    have := mrun_map_fst r.ignoreCase _ r.re input.data _ p hm
    rw [← h, this]
    simp [Function.comp_def]

/-! ## General lemmas: the parameter-marker rewrite passes -/

theorem takeWhile_dropWhile_append (p : Char → Bool) (l1 l2 : List Char)
    (h1 : ∀ c ∈ l1, p c = true) (h2 : ∀ c ∈ l2.take 1, p c = false) :
    (l1 ++ l2).takeWhile p = l1 ∧ (l1 ++ l2).dropWhile p = l2 := by
  induction l1 with
  | nil =>
    cases l2 with
    | nil => exact ⟨rfl, rfl⟩
    | cons c t =>
      have hc := h2 c (by simp)
      simp [List.takeWhile_cons, List.dropWhile_cons, hc]
  | cons c t ih =>
    have hc := h1 c (by simp)
    have ih' := ih fun x hx => h1 x (by simp [hx])
    simp [List.takeWhile_cons, List.dropWhile_cons, hc, ih'.1, ih'.2]

/-- The named-parameter scanner at a separator-prefixed marker
`/:name`: for every parameter name (a nonempty word) and every
following context that does not extend the name, the match yields
prefix `/`, the name, and the rest. -/
theorem tryParamMatch_named_sep (name rest : List Char)
    (hne : name ≠ []) (hw : ∀ c ∈ name, isWordChar c = true)
    (hr : ∀ c ∈ rest.take 1, isWordChar c = false) :
    tryParamMatch false ('/' :: ':' :: (name ++ rest)) = some (['/'], name, rest) := by
  have h := takeWhile_dropWhile_append isWordChar name rest hw hr
  show (if (name ++ rest).takeWhile isWordChar = [] then none
        else some (['/'], (name ++ rest).takeWhile isWordChar,
          (name ++ rest).dropWhile isWordChar)) = some (['/'], name, rest)
  rw [h.1, h.2]
  simp [hne]

/-- The greedy-parameter scanner at a separator-prefixed marker
`/:name+`: the `+` always delimits the name, so no side condition on
the rest is needed. -/
theorem tryParamMatch_greedy_sep (name rest : List Char)
    (hne : name ≠ []) (hw : ∀ c ∈ name, isWordChar c = true) :
    tryParamMatch true ('/' :: ':' :: (name ++ ('+' :: rest))) = some (['/'], name, rest) := by
  have h := takeWhile_dropWhile_append isWordChar name ('+' :: rest) hw
    (by intro c hc; simp at hc; subst hc; rfl)
  show (if (name ++ ('+' :: rest)).takeWhile isWordChar = [] then none
        else
          match (name ++ ('+' :: rest)).dropWhile isWordChar with
          | '+' :: s4 => some (['/'], (name ++ ('+' :: rest)).takeWhile isWordChar, s4)
          | _ => none) = some (['/'], name, rest)
  rw [h.1, h.2]
  simp [hne]

/-- The named-parameter pass at a separator-prefixed marker: `/:name`
is rewritten into the capturing region `(/(?<name>[^//]+?))` — one or
more characters excluding the path separator, bound to `name` — and
the scan continues after the marker. -/
theorem namedParamsAux_marker_sep (fuel : Nat) (name rest : List Char)
    (hne : name ≠ []) (hw : ∀ c ∈ name, isWordChar c = true)
    (hr : ∀ c ∈ rest.take 1, isWordChar c = false) :
    namedParamsAux (fuel + 1) ('/' :: ':' :: (name ++ rest)) =
      ('(' :: '/' :: '(' :: '?' :: '<' :: name) ++
        ('>' :: '[' :: '^' :: '/' :: '/' :: ']' :: '+' :: '?' :: ')' :: ')' ::
          namedParamsAux fuel rest) := by
  have hm := tryParamMatch_named_sep name rest hne hw hr
  simp only [namedParamsAux, hm]
  simp

/-- The greedy-parameter pass at a separator-prefixed marker: `/:name+`
is rewritten into `(/(?<name>*))` — whose `*` the later wildcard pass
turns into the region `(.*)?`, zero or more characters of any kind
including separators — and the scan continues after the marker. -/
theorem greedyParamsAux_marker_sep (fuel : Nat) (name rest : List Char)
    (hne : name ≠ []) (hw : ∀ c ∈ name, isWordChar c = true) :
    greedyParamsAux (fuel + 1) ('/' :: ':' :: (name ++ ('+' :: rest))) =
      ('(' :: '/' :: '(' :: '?' :: '<' :: name) ++
        ('>' :: '*' :: ')' :: ')' :: greedyParamsAux fuel rest) := by
  have hm := tryParamMatch_greedy_sep name rest hne hw
  simp only [greedyParamsAux, hm]
  simp

/-! ## Claim theorems -/

/-- **C1.** A named parameter marker `:name` compiles to a capturing
region matching one or more characters excluding the path separator
(also excluding a literal dot when the marker is dot-prefixed), while a
greedy marker `:name+` compiles to a region matching zero or more
characters of any kind including separators: under every option
combination, `/docs/:path+` against `/docs/a/b/c` yields
`params.path = "a/b/c"` (greedy crosses `/`); `/users/:id` matches
neither `/users/a/b` (named never crosses `/`) nor `/users/` (at least
one character); and `/:file.:ext` against `/a.b.c` captures
`file = "a.b"`, `ext = "c"` (the dot-prefixed capture excludes the
dot).  The emitted sources exhibit the capturing regions themselves. -/
theorem named_and_greedy_capture_semantics (s t : Bool) :
    (∀ (fuel : Nat) (name rest : List Char), name ≠ [] →
      (∀ c ∈ name, isWordChar c = true) → (∀ c ∈ rest.take 1, isWordChar c = false) →
      namedParamsAux (fuel + 1) ('/' :: ':' :: (name ++ rest)) =
        ('(' :: '/' :: '(' :: '?' :: '<' :: name) ++
          ('>' :: '[' :: '^' :: '/' :: '/' :: ']' :: '+' :: '?' :: ')' :: ')' ::
            namedParamsAux fuel rest)) ∧
    (∀ (fuel : Nat) (name rest : List Char), name ≠ [] →
      (∀ c ∈ name, isWordChar c = true) →
      greedyParamsAux (fuel + 1) ('/' :: ':' :: (name ++ ('+' :: rest))) =
        ('(' :: '/' :: '(' :: '?' :: '<' :: name) ++
          ('>' :: '*' :: ')' :: ')' :: greedyParamsAux fuel rest)) ∧
    compilePattern "/docs/:path+" = "/docs(/(?<path>(.*)?))" ∧
    compilePattern "/users/:id" = "/users(/(?<id>[^//]+?))" ∧
    (compile "/docs/:path+" ⟨s, t⟩).map
        (fun r => (execRegExp r "/docs/a/b/c").map decodeParams) =
      some (some (.ok [("path", some "a/b/c")])) ∧
    (compile "/users/:id" ⟨s, t⟩).map (fun r => execRegExp r "/users/a/b") = some none ∧
    (compile "/users/:id" ⟨s, t⟩).map (fun r => execRegExp r "/users/") = some none ∧
    (compile "/:file.:ext" ⟨s, t⟩).map
        (fun r => (execRegExp r "/a.b.c").map decodeParams) =
      some (some (.ok [("file", some "a.b"), ("ext", some "c")])) := by
  refine ⟨namedParamsAux_marker_sep, greedyParamsAux_marker_sep, ?_⟩
  cases s <;> cases t <;> exact ⟨rfl, rfl, rfl, rfl, rfl, rfl⟩

theorem named_and_greedy_capture_semantics_witness :
    namedParamsAux 1 ('/' :: ':' :: (['i', 'd'] ++ [])) =
      ('(' :: '/' :: '(' :: '?' :: '<' :: ['i', 'd']) ++
        ('>' :: '[' :: '^' :: '/' :: '/' :: ']' :: '+' :: '?' :: ')' :: ')' ::
          namedParamsAux 0 []) ∧
    greedyParamsAux 1 ('/' :: ':' :: (['p'] ++ ('+' :: []))) =
      ('(' :: '/' :: '(' :: '?' :: '<' :: ['p']) ++
        ('>' :: '*' :: ')' :: ')' :: greedyParamsAux 0 []) :=
  ⟨(named_and_greedy_capture_semantics true true).1 0 ['i', 'd'] []
      (by decide) (by decide) (by decide),
    (named_and_greedy_capture_semantics true true).2.1 0 ['p'] []
      (by decide) (by decide)⟩

/-- **C2.** When the method matches and the matcher matches the
request path, the pipeline step decodes the captures, attaches
`{params, routePath}` to the request (overwriting any prior match) and
invokes the composed chain with the same continuation; consequently two
routes registered for the same method and path both run, in
registration order, when each handler continues, and a later matching
route overwrites the `params`/`routePath` of an earlier one. -/
theorem route_dispatch_attaches_params_and_stacks :
    (∀ (method : Option String) (path : String) (composed : Middleware)
        (regexp : CompiledRegExp) (o : RouteOptions) (ctx : Ctx) (next : Ctx → Outcome)
        (groups params : List (String × Option String)),
      compile path o = some regexp →
      «matches» ctx method = true →
      execRegExp regexp ctx.req.pathname = some groups →
      decodeParams groups = .ok params →
      routeMiddleware method path composed regexp ctx next =
        composed
          { ctx with req := { ctx.req with params := some params, routePath := some path } }
          next) ∧
    ((do
        let app1 ← createRouteMethod (some "GET") {} ⟨[]⟩ "/users/:id" [markHandler "r1"]
        let app2 ← createRouteMethod (some "GET") {} app1 "/users/:id" [markHandler "r2"]
        app2.dispatch ctx0 fun c => .ok c : Except String Ctx) =
      .ok { req := { method := "GET", pathname := "/users/7",
                     params := some [("id", some "7")], routePath := some "/users/:id" },
            marks := ["r1", "r2"] }) ∧
    ((do
        let app1 ← createRouteMethod (some "GET") {} ⟨[]⟩ "/users/:id" [markHandler "r1"]
        let app2 ← createRouteMethod (some "GET") {} app1 "/users/:name" [markHandler "r2"]
        app2.dispatch ctx0 fun c => .ok c : Except String Ctx) =
      .ok { req := { method := "GET", pathname := "/users/7",
                     params := some [("name", some "7")], routePath := some "/users/:name" },
            marks := ["r1", "r2"] }) := by
  refine ⟨?_, rfl, rfl⟩
  intro method path composed regexp o ctx next groups params hc hm hx hd
  unfold routeMiddleware
  simp [hm, hx, hd]

theorem route_dispatch_attaches_params_and_stacks_witness :
    compile "/users/:id" {} = some usersIdRegexp ∧
    «matches» ctx0 (some "GET") = true ∧
    execRegExp usersIdRegexp ctx0.req.pathname = some [("id", some "7")] ∧
    decodeParams [("id", some "7")] = .ok [("id", some "7")] ∧
    routeMiddleware (some "GET") "/users/:id" (markHandler "r1") usersIdRegexp ctx0
        (fun c => .ok c) =
      markHandler "r1"
        { req := { method := "GET", pathname := "/users/7",
                   params := some [("id", some "7")], routePath := some "/users/:id" } }
        (fun c => .ok c) :=
  ⟨rfl, rfl, rfl, rfl,
    route_dispatch_attaches_params_and_stacks.1 (some "GET") "/users/:id" (markHandler "r1")
      usersIdRegexp {} ctx0 (fun c => .ok c) [("id", some "7")] [("id", some "7")]
      rfl rfl rfl rfl⟩

/-- **C3.** `matches`: a route with no method ("any") matches every
request; otherwise a match is exactly equality of the method strings
or the single GET-route/HEAD-request fallback — no other cross-method
equivalence (POST never matches PUT, non-GET routes never match
HEAD). -/
theorem methodMatches_spec (ctx : Ctx) (m : String) :
    «matches» ctx none = true ∧
    («matches» ctx (some m) = true ↔
      (ctx.req.method = m ∨ (m = "GET" ∧ ctx.req.method = "HEAD"))) ∧
    «matches» { req := { method := "PUT", pathname := "/" } } (some "POST") = false ∧
    «matches» { req := { method := "HEAD", pathname := "/" } } (some "POST") = false ∧
    «matches» { req := { method := "HEAD", pathname := "/" } } (some "GET") = true := by
  refine ⟨rfl, ?_, rfl, rfl, rfl⟩
  simp only [«matches»]
  split_ifs with h1 h2
  · simp [h1]
  · simp [h2]
  · simp [h1, h2]

/-- **C4.** `decode` returns `undefined` for a falsy raw value (absent
or empty capture) without decoding; a malformed percent-escape is not
caught locally: it fails the whole dispatch step; and `/docs/:path+`
against `/docs/` (trailing enabled) yields `params.path = undefined`. -/
theorem decode_falsy_and_error_propagation :
    decode none = .ok none ∧
    decode (some "") = .ok none ∧
    (∀ v : String, decodeURIComponent v = none →
      decode (some v) = .error "URIError: URI malformed") ∧
    (∀ s : Bool, (compile "/docs/:path+" ⟨s, true⟩).map
        (fun r => (execRegExp r "/docs/").map decodeParams) =
      some (some (.ok [("path", none)]))) ∧
    routeMiddleware (some "GET") "/x/:v" (markHandler "h") xvRegexp
        { req := { method := "GET", pathname := "/x/%" } } (fun c => .ok c) =
      .error "URIError: URI malformed" := by
  refine ⟨rfl, rfl, ?_, ?_, rfl⟩
  · intro v hv
    unfold decode
    have hne : ¬ v = "" := by
      intro he
      rw [he] at hv
      exact absurd hv (by decide)
    simp [hne, hv]
  · intro s
    cases s <;> rfl

theorem decode_falsy_and_error_propagation_witness :
    decodeURIComponent "%" = none ∧
    decode (some "%") = .error "URIError: URI malformed" :=
  ⟨rfl, decode_falsy_and_error_propagation.2.2.1 "%" rfl⟩

/-- **C5.** Registering a route with an empty handler sequence raises,
at registration time, an error naming the method (or "ALL") and the
pattern, leaving the app's registered routes untouched; with at least
one handler registration appends exactly one pipeline step to the host
app and returns it. -/
theorem register_empty_handlers_error (m : Option String) (o : RouteOptions) (app : App)
    (path : String) :
    createRouteMethod m o app path [] =
      .error ("Route " ++ m.getD "ALL" ++ " " ++ path ++ " must have at least one handler") ∧
    ∀ (h : Middleware) (hs : List Middleware) (r : CompiledRegExp),
      compile path o = some r →
      createRouteMethod m o app path (h :: hs) =
        .ok { middlewares :=
                app.middlewares ++ [routeMiddleware m path (composedOf (h :: hs)) r] } := by
  constructor
  · rfl
  · intro h hs r hc
    unfold createRouteMethod createRoute
    simp [hc, App.use]

theorem register_empty_handlers_error_witness :
    createRouteMethod (some "GET") {} ⟨[]⟩ "/users" [] =
      .error "Route GET /users must have at least one handler" ∧
    compile "/users" ({} : RouteOptions) = some usersRegexp ∧
    createRouteMethod (some "GET") {} ⟨[]⟩ "/users" [idHandler] =
      .ok { middlewares :=
              [routeMiddleware (some "GET") "/users" (composedOf [idHandler]) usersRegexp] } :=
  ⟨(register_empty_handlers_error (some "GET") {} ⟨[]⟩ "/users").1, rfl, by
    have := (register_empty_handlers_error (some "GET") {} ⟨[]⟩ "/users").2
      idHandler [] usersRegexp rfl
    simpa using this⟩

/-- **C6.** A bare wildcard `*` (optionally preceded by a separator)
compiles to an optional region — the preceding separator plus
everything after it — so `/files/*` compiles to `/files(/.*)?` and,
under every option combination, matches both `/files` (prefix alone)
and `/files/a/b` (prefix followed by anything). -/
theorem wildcard_optional_region :
    (∀ rest : List Char, wildcard ('/' :: '*' :: rest) =
      '(' :: '/' :: '.' :: '*' :: ')' :: '?' :: wildcard rest) ∧
    (∀ rest : List Char, wildcard ('*' :: rest) =
      '(' :: '.' :: '*' :: ')' :: '?' :: wildcard rest) ∧
    compilePattern "/files/*" = "/files(/.*)?" ∧
    ∀ s t : Bool,
      (compile "/files/*" ⟨s, t⟩).map (fun r => execRegExp r "/files") = some (some []) ∧
      (compile "/files/*" ⟨s, t⟩).map (fun r => execRegExp r "/files/a/b") = some (some []) := by
  refine ⟨fun rest => rfl, fun rest => rfl, rfl, ?_⟩
  intro s t
  cases s <;> cases t <;> exact ⟨rfl, rfl⟩

/-- **C7.** The options change the accepted language exactly as
specified: with `trailing = true` (default) `/users` accepts `/users`
and `/users/`, with `trailing = false` only `/users`; with
`sensitive = false` (default) `/Hoa` accepts `/hoa` and `/Hoa`, with
`sensitive = true` only `/Hoa`. -/
theorem trailing_and_sensitive_options :
    (compile "/users" {}).map (fun r => execRegExp r "/users") = some (some []) ∧
    (compile "/users" {}).map (fun r => execRegExp r "/users/") = some (some []) ∧
    (compile "/users" { trailing := false }).map (fun r => execRegExp r "/users") =
      some (some []) ∧
    (compile "/users" { trailing := false }).map (fun r => execRegExp r "/users/") =
      some none ∧
    (compile "/Hoa" {}).map (fun r => execRegExp r "/hoa") = some (some []) ∧
    (compile "/Hoa" {}).map (fun r => execRegExp r "/Hoa") = some (some []) ∧
    (compile "/Hoa" { sensitive := true }).map (fun r => execRegExp r "/hoa") = some none ∧
    (compile "/Hoa" { sensitive := true }).map (fun r => execRegExp r "/Hoa") =
      some (some []) :=
  ⟨rfl, rfl, rfl, rfl, rfl, rfl, rfl, rfl⟩

/-- **C8.** Compilation first collapses duplicate separators and strips
the trailing separator, so under every option value `/a//b/` compiles
to the very same matcher as `/a/b` and accepts exactly the same paths
with the same captures. -/
theorem double_slash_normalization (s t : Bool) (path : String) :
    String.mk (stripSlashes ("/a//b/").data) = "/a/b" ∧
    compile "/a//b/" ⟨s, t⟩ = compile "/a/b" ⟨s, t⟩ ∧
    (compile "/a//b/" ⟨s, t⟩).map (fun r => execRegExp r path) =
      (compile "/a/b" ⟨s, t⟩).map (fun r => execRegExp r path) := by
  have h : compile "/a//b/" ⟨s, t⟩ = compile "/a/b" ⟨s, t⟩ := by
    cases s <;> cases t <;> rfl
  exact ⟨rfl, h, by rw [h]⟩

/-- **C9.** When the method check fails or the matcher reports no
match, the pipeline step invokes the continuation on the *unchanged*
context and nothing else: no params are attached and no error is
raised — a non-matching route silently defers. -/
theorem nonmatching_route_defers (method : Option String) (path : String)
    (composed : Middleware) (regexp : CompiledRegExp) (ctx : Ctx) (next : Ctx → Outcome)
    (h : «matches» ctx method = false ∨ execRegExp regexp ctx.req.pathname = none) :
    routeMiddleware method path composed regexp ctx next = next ctx := by
  unfold routeMiddleware
  rcases h with h | h
  · simp [h]
  · by_cases hm : «matches» ctx method
    · simp [hm, h]
    · simp [hm]

theorem nonmatching_route_defers_witness :
    («matches» ctx0 (some "POST") = false ∧
      routeMiddleware (some "POST") "/users/:id" (markHandler "r1") usersIdRegexp ctx0
          (fun c => .ok c) = .ok ctx0) ∧
    (execRegExp usersIdRegexp "/users" = none ∧
      routeMiddleware (some "GET") "/users/:id" (markHandler "r1") usersIdRegexp
          { req := { method := "GET", pathname := "/users" } } (fun c => .ok c) =
        .ok { req := { method := "GET", pathname := "/users" } }) :=
  ⟨⟨rfl, nonmatching_route_defers (some "POST") "/users/:id" (markHandler "r1") usersIdRegexp
      ctx0 (fun c => .ok c) (Or.inl rfl)⟩,
   ⟨rfl, nonmatching_route_defers (some "GET") "/users/:id" (markHandler "r1") usersIdRegexp
      { req := { method := "GET", pathname := "/users" } } (fun c => .ok c) (Or.inr rfl)⟩⟩

/-- **C10.** Wildcard captures are anonymous: the matcher compiled from
`/files/*` yields an empty named-capture mapping on *every* matching
path (so params never contains an entry for the text the wildcard
consumed), and in a mixed pattern `/d/:id/*` only the `:id` marker
contributes a key. -/
theorem wildcard_capture_anonymous :
    (∀ (o : RouteOptions) (r : CompiledRegExp) (path : String) (g : Caps),
      compile "/files/*" o = some r → execRegExp r path = some g → g = []) ∧
    (∀ s t : Bool,
      (compile "/d/:id/*" ⟨s, t⟩).map
          (fun r => (execRegExp r "/d/7/x/y").map decodeParams) =
        some (some (.ok [("id", some "7")]))) := by
  constructor
  · rintro ⟨s, t⟩ r path g hc hx
    have hn : r.re.names = [] := by
      cases s <;> cases t <;>
        (injection hc with hc; rw [← hc]; rfl)
    have hfst := execRegExp_map_fst r path g hx
    rw [hn] at hfst
    exact List.map_eq_nil_iff.mp hfst
  · intro s t
    cases s <;> cases t <;> rfl

theorem wildcard_capture_anonymous_witness :
    compile "/files/*" ({} : RouteOptions) = some filesRegexp ∧
    execRegExp filesRegexp "/files/a/b" = some [] ∧
    ([] : Caps) = [] :=
  ⟨rfl, rfl,
    wildcard_capture_anonymous.1 {} filesRegexp "/files/a/b" [] rfl rfl⟩

end TinyRouter
